import Mathlib

/-!
Verification of the tag-matrix model, data loader and admin-console control flow of the
vibe-coding product-changelog webapp.

The functions under `VCC` are shallow embeddings of the TypeScript source:
* `flattenTags`, `productHasTag`, `getProductTagFeatures`, `getTagFeatures`, `parseDate`,
  `getPrimaryTags`, `getSubtags` from the data hook module (`useData`),
* the data-loading pipeline of `useData.loadData`,
* the admin-page request handlers (401 handling) and the job-status polling loop.

JavaScript-specific behaviour is modelled explicitly:
* a feature `tags` field may be any non-array JS value (`"None"`, `undefined`, ...); the
  code guards it with `Array.isArray`, modelled by the `TagsField` sum type;
* a `FeatureTag.subtags` field may be missing (`tag.subtags || []`), modelled by `Option`;
* `new Date(...)` is modelled by `JSDate` (a valid UTC millisecond timestamp or the
  invalid date); date-only ISO strings parse as UTC, legacy strings as local time, so the
  model carries an explicit timezone-offset parameter `tz` (milliseconds east of UTC);
* `Array.prototype.sort` is a stable comparator sort, modelled by `stableSort`.
-/

namespace VCC

/-- Taxonomy subtag `{name, description?}` (types/index.ts). -/
structure Subtag where
  name : String
  description : Option String
deriving DecidableEq

/-- Taxonomy tag `{name, description?, subtags}` (types/index.ts). -/
structure Tag where
  name : String
  description : Option String
  subtags : List Subtag
deriving DecidableEq

/-- Flattened matrix row `{primaryTag, secondaryTag, primaryDescription?, secondaryDescription?}`. -/
structure TagRow where
  primaryTag : String
  secondaryTag : String
  primaryDescription : Option String
  secondaryDescription : Option String
deriving DecidableEq

/-- A subtag reference `{name}` carried by a feature's tag assignment. -/
structure SubtagRef where
  name : String
deriving DecidableEq

/-- A `FeatureTag` `{name, subtags}`.  The `subtags` field can be absent in raw data; the
source reads it as `tag.subtags || []`, so it is modelled as an `Option`. -/
structure FeatureTag where
  name : String
  subtags : Option (List SubtagRef)
deriving DecidableEq

/-- The raw `tags` field of a feature.  The source guards every read with
`Array.isArray(feature.tags) ? feature.tags : []`, so a malformed value (the string
`"None"`, `undefined`, an object, ...) is represented by `nonArray`. -/
inductive TagsField where
  | array (tags : List FeatureTag)
  | nonArray
deriving DecidableEq

/-- `Array.isArray(feature.tags) ? feature.tags : []` (useData.ts). -/
def TagsField.toList : TagsField → List FeatureTag
  | .array tags => tags
  | .nonArray => []

/-- A changelog entry `{title, description, time, tags}` (types/index.ts). -/
structure Feature where
  title : String
  description : String
  time : String
  tags : TagsField
deriving DecidableEq

/-- A loaded product `{name, url, features}` (types/index.ts). -/
structure Product where
  name : String
  url : String
  features : List Feature
deriving DecidableEq

/-- `feature.tags` normalised per the source guard. -/
def normTags (f : Feature) : List FeatureTag := f.tags.toList

/-- `tag.subtags || []` for a feature tag. -/
def FeatureTag.subtagList (t : FeatureTag) : List SubtagRef := t.subtags.getD []

/-- `flattenTags` (useData.ts lines 66-91): one row per subtag, and a synthetic
`"Other"` row (descriptions duplicated from the parent) for a tag without subtags. -/
def flattenTags : List Tag → List TagRow
  | [] => []
  | tag :: rest =>
    (if tag.subtags.length = 0 then
      [{ primaryTag := tag.name, secondaryTag := "Other",
         primaryDescription := tag.description, secondaryDescription := tag.description }]
    else
      tag.subtags.map fun subtag =>
        { primaryTag := tag.name, secondaryTag := subtag.name,
          primaryDescription := tag.description, secondaryDescription := subtag.description })
      ++ flattenTags rest

/-- The rows the spec says a single tag contributes, written from the spec text: a tag
with no subtags yields one `"Other"` row with both descriptions taken from the parent;
otherwise one row per subtag in input subtag order. -/
def tagRowsSpec (t : Tag) : List TagRow :=
  if t.subtags = [] then
    [{ primaryTag := t.name, secondaryTag := "Other",
       primaryDescription := t.description, secondaryDescription := t.description }]
  else
    t.subtags.map fun st =>
      { primaryTag := t.name, secondaryTag := st.name,
        primaryDescription := t.description, secondaryDescription := st.description }

/-- C1: `flattenTags` returns exactly `sum over tags of max(1, number of subtags)` rows,
and equals the concatenation, in input tag order, of each tag's spec rows (one `"Other"`
row with the parent's descriptions for a subtag-less tag, else one row per subtag in
input subtag order), with no de-duplication. -/
theorem flattenTags_spec (tags : List Tag) :
    (flattenTags tags).length = (tags.map fun t => max 1 t.subtags.length).sum
    ∧ flattenTags tags = tags.flatMap tagRowsSpec := by
  induction tags with
  | nil => exact ⟨rfl, rfl⟩
  | cons tag rest ih =>
    refine ⟨?_, ?_⟩
    · show ((if tag.subtags.length = 0 then _ else _ : List TagRow) ++ flattenTags rest).length = _
      rw [List.length_append, List.map_cons, List.sum_cons, ih.1]
      congr 1
      by_cases h : tag.subtags.length = 0
      · simp [h]
      · have h1 : 1 ≤ tag.subtags.length := Nat.one_le_iff_ne_zero.mpr h
        simp [h, Nat.max_eq_right h1]
    · show (if tag.subtags.length = 0 then _ else _ : List TagRow) ++ flattenTags rest = _
      rw [List.flatMap_cons, ih.2]
      congr 1
      by_cases h : tag.subtags = []
      · simp [tagRowsSpec, h]
      · have h0 : ¬ tag.subtags.length = 0 := by
          simpa [List.length_eq_zero] using h
        simp [tagRowsSpec, h, h0]

/-- `productHasTag` (useData.ts lines 94-110): some feature carries a tag named
`primaryTag` whose (guarded) subtag list is empty when `secondaryTag = "Other"`, or
contains a subtag named `secondaryTag` otherwise. -/
def productHasTag (product : Product) (primaryTag secondaryTag : String) : Bool :=
  product.features.any fun feature =>
    (normTags feature).any fun tag =>
      tag.name == primaryTag &&
        (if secondaryTag == "Other" then tag.subtagList.length == 0
         else tag.subtagList.any fun st => st.name == secondaryTag)

/-- `getProductTagFeatures` (useData.ts lines 113-123): the features matching the same
predicate as `productHasTag`, in input order. -/
def getProductTagFeatures (product : Product) (primaryTag secondaryTag : String) : List Feature :=
  product.features.filter fun feature =>
    (normTags feature).any fun tag =>
      if tag.name != primaryTag then false
      else
        if secondaryTag == "Other" then tag.subtagList.length == 0
        else tag.subtagList.any fun st => st.name == secondaryTag

/-- `getPrimaryTags` (useData.ts lines 159-161): tag names in input order. -/
def getPrimaryTags (tags : List Tag) : List String :=
  tags.map fun t => t.name

/-- `getSubtags` (useData.ts lines 164-169): subtag names of the first tag named
`primaryTag`, `["Other"]` if it has none, `[]` if no such tag exists. -/
def getSubtags (tags : List Tag) (primaryTag : String) : List String :=
  match tags.find? fun t => t.name == primaryTag with
  | none => []
  | some tag => if tag.subtags.length = 0 then ["Other"] else tag.subtags.map fun st => st.name

/-- C6: `getSubtags` returns `[]` when no tag named `p` is present, `["Other"]` when the
matching tag has no subtags, and the matching tag's subtag names in input order
otherwise. -/
theorem getSubtags_spec (tags : List Tag) (p : String) :
    ((∀ t ∈ tags, t.name ≠ p) → getSubtags tags p = [])
    ∧ (∀ t, tags.find? (fun t => t.name == p) = some t →
        (t.subtags = [] → getSubtags tags p = ["Other"])
        ∧ (t.subtags ≠ [] → getSubtags tags p = t.subtags.map fun st => st.name)) := by
  constructor
  · intro h
    have hnone : tags.find? (fun t => t.name == p) = none := by
      rw [List.find?_eq_none]
      intro t ht
      simpa using h t ht
    simp [getSubtags, hnone]
  · intro t ht
    constructor
    · intro hsub
      simp [getSubtags, ht, hsub]
    · intro hsub
      have h0 : ¬ t.subtags.length = 0 := by simpa [List.length_eq_zero] using hsub
      simp [getSubtags, ht, h0]

/-- Witness for C6 at concrete inputs: a present tag with no subtags yields `["Other"]`,
an absent tag yields `[]`. -/
theorem getSubtags_spec_witness :
    getSubtags [{ name := "A", description := none, subtags := [] }] "A" = ["Other"]
    ∧ getSubtags [{ name := "A", description := none, subtags := [] }] "B" = [] := by
  constructor
  · exact ((getSubtags_spec [{ name := "A", description := none, subtags := [] }] "A").2
      { name := "A", description := none, subtags := [] } (by decide)).1 rfl
  · exact (getSubtags_spec [{ name := "A", description := none, subtags := [] }] "B").1
      (by decide)

/-- C3: `productHasTag product p "Other"` holds exactly when some feature carries a
feature tag named `p` with an empty (guarded) subtag list; for `s ≠ "Other"` it holds
exactly when some feature carries a feature tag named `p` with a subtag named `s`; and a
feature whose `tags` field is not an array contributes no tags at all. -/
theorem productHasTag_spec (product : Product) (p s : String) :
    (productHasTag product p "Other" = true ↔
      ∃ f ∈ product.features, ∃ t ∈ normTags f, t.name = p ∧ t.subtagList = [])
    ∧ (s ≠ "Other" →
      (productHasTag product p s = true ↔
        ∃ f ∈ product.features, ∃ t ∈ normTags f, t.name = p ∧ ∃ st ∈ t.subtagList, st.name = s))
    ∧ (∀ f : Feature, f.tags = TagsField.nonArray → ∀ q r : String,
        productHasTag { product with features := f :: product.features } q r
          = productHasTag product q r) := by
  refine ⟨?_, ?_, ?_⟩
  · simp [productHasTag, List.any_eq_true, List.length_eq_zero]
  · intro hs
    have hbeq : (s == "Other") = false := by
      simpa using hs
    simp [productHasTag, hbeq, List.any_eq_true]
  · intro f hf q r
    simp [productHasTag, normTags, hf, TagsField.toList]

/-- Witness for C3: a product with one feature tagged `(UI, empty subtags)` has the
`(UI, Other)` cell and, by the `s ≠ "Other"` direction, not the `(UI, Forms)` cell. -/
theorem productHasTag_spec_witness :
    productHasTag
      { name := "p1", url := "",
        features := [{ title := "t", description := "", time := "2024-01-01",
                       tags := TagsField.array [{ name := "UI", subtags := some [] }] }] }
      "UI" "Other" = true
    ∧ productHasTag
      { name := "p1", url := "",
        features := [{ title := "t", description := "", time := "2024-01-01",
                       tags := TagsField.array [{ name := "UI", subtags := some [] }] }] }
      "UI" "Forms" = false := by
  constructor
  · exact (productHasTag_spec
      { name := "p1", url := "",
        features := [{ title := "t", description := "", time := "2024-01-01",
                       tags := TagsField.array [{ name := "UI", subtags := some [] }] }] }
      "UI" "Forms").1.mpr (by decide)
  · have h := ((productHasTag_spec
      { name := "p1", url := "",
        features := [{ title := "t", description := "", time := "2024-01-01",
                       tags := TagsField.array [{ name := "UI", subtags := some [] }] }] }
      "UI" "Forms").2.1 (by decide))
    cases hb : productHasTag
      { name := "p1", url := "",
        features := [{ title := "t", description := "", time := "2024-01-01",
                       tags := TagsField.array [{ name := "UI", subtags := some [] }] }] }
      "UI" "Forms"
    · rfl
    · exact absurd (h.mp hb) (by decide)

/-- Digits-to-number conversion for a matched digit group. -/
def digitsToNat (l : List Char) : Nat :=
  l.foldl (fun acc c => acc * 10 + (c.toNat - 48)) 0

/-- Matching `\d\x7b4\x7d-\d\x7b2\x7d-\d\x7b2\x7d` at the head of the character list,
returning the year, month and day digit groups. -/
def isoMatchAt : List Char → Option (Nat × Nat × Nat)
  | y1 :: y2 :: y3 :: y4 :: h1 :: m1 :: m2 :: h2 :: d1 :: d2 :: _ =>
    if (y1.isDigit && y2.isDigit && y3.isDigit && y4.isDigit && m1.isDigit && m2.isDigit
        && d1.isDigit && d2.isDigit) && h1 == '-' && h2 == '-' then
      some (digitsToNat [y1, y2, y3, y4], digitsToNat [m1, m2], digitsToNat [d1, d2])
    else none
  | _ => none

/-- Leftmost match of the ISO date pattern, as `String.prototype.match` finds it. -/
def isoScanList : List Char → Option (Nat × Nat × Nat)
  | [] => none
  | c :: rest =>
    match isoMatchAt (c :: rest) with
    | some r => some r
    | none => isoScanList rest

/-- `dateStr.match` with the ISO date regex of `parseDate`. -/
def isoScan (s : String) : Option (Nat × Nat × Nat) :=
  isoScanList s.data

/-- Exactly four digits at the head of the list (the year group of the slash pattern). -/
def mdyYearGroup : List Char → Option (List Char)
  | a :: b :: c :: d :: _ =>
    if a.isDigit && b.isDigit && c.isDigit && d.isDigit then some [a, b, c, d] else none
  | _ => none

/-- After the month group: a slash, a greedy one-or-two digit day group (two digits tried
first, with backtracking), a slash, and four year digits. -/
def mdyAfterG1 (g1 : List Char) : List Char → Option (List Char × List Char × List Char)
  | '/' :: rest2 =>
    (match rest2 with
     | a :: b :: '/' :: rest3 =>
       if a.isDigit && b.isDigit then
         (mdyYearGroup rest3).map fun g3 => (g1, [a, b], g3)
       else none
     | _ => none).orElse fun _ =>
      match rest2 with
      | a :: '/' :: rest3 =>
        if a.isDigit then (mdyYearGroup rest3).map fun g3 => (g1, [a], g3) else none
      | _ => none
  | _ => none

/-- Matching the slash pattern at the head of the list: a greedy one-or-two digit month
group (two digits tried first, with backtracking), then slash, day group, slash, year. -/
def mdyMatchAt (l : List Char) : Option (List Char × List Char × List Char) :=
  (match l with
   | a :: b :: rest => if a.isDigit && b.isDigit then mdyAfterG1 [a, b] rest else none
   | _ => none).orElse fun _ =>
    match l with
    | a :: rest => if a.isDigit then mdyAfterG1 [a] rest else none
    | _ => none

/-- Leftmost match of the `M/D/YYYY` pattern of `parseDate`. -/
def mdyScanList : List Char → Option (List Char × List Char × List Char)
  | [] => none
  | c :: rest =>
    match mdyMatchAt (c :: rest) with
    | some r => some r
    | none => mdyScanList rest

/-- `dateStr.match` with the slash date regex of `parseDate`. -/
def mdyScan (s : String) : Option (List Char × List Char × List Char) :=
  mdyScanList s.data

/-- A JavaScript `Date`: either a valid UTC millisecond timestamp or the invalid date
(whose `getTime()` is `NaN`). -/
inductive JSDate where
  | valid (ms : Int)
  | invalid
deriving DecidableEq

/-- Gregorian leap year. -/
def isLeap (y : Int) : Bool :=
  (y % 4 == 0 && y % 100 != 0) || y % 400 == 0

/-- Length of a month. -/
def daysInMonth (y : Int) (m : Nat) : Nat :=
  if m = 2 then (if isLeap y then 29 else 28)
  else if m = 4 ∨ m = 6 ∨ m = 9 ∨ m = 11 then 30 else 31

/-- Days from the Unix epoch to the civil date `y-m-d` (proleptic Gregorian calendar,
standard days-from-civil computation). -/
def daysFromCivil (y : Int) (m d : Nat) : Int :=
  let y2 : Int := if m ≤ 2 then y - 1 else y
  let era : Int := (if 0 ≤ y2 then y2 else y2 - 399) / 400
  let yoe : Int := y2 - era * 400
  let mp : Int := if 2 < m then (m : Int) - 3 else (m : Int) + 9
  let doy : Int := (153 * mp + 2) / 5 + (d : Int) - 1
  let doe : Int := yoe * 365 + yoe / 4 - yoe / 100 + doy
  era * 146097 + doe - 719468

/-- UTC milliseconds of midnight of the civil date `y-m-d`. -/
def civilMs (y : Int) (m d : Nat) : Int :=
  daysFromCivil y m d * 86400000

/-- `new Date("YYYY-MM-DD")`: a date-only ISO string parses as UTC midnight; components
out of calendar range give the invalid date. -/
def newDateIso (y m d : Nat) : JSDate :=
  if 1 ≤ m ∧ m ≤ 12 ∧ 1 ≤ d ∧ d ≤ daysInMonth (y : Int) m then .valid (civilMs y m d)
  else .invalid

/-- `new Date` on a non-ISO `Y-M-D` string (single-digit month or day): the legacy
parser reads it as local-time midnight (hence the timezone offset `tz`, in milliseconds
east of UTC), accepts months 1-12 and days 1-31, and lets an overflowing day roll over
into the next month. -/
def newDateLegacy (tz : Int) (y m d : Nat) : JSDate :=
  if 1 ≤ m ∧ m ≤ 12 ∧ 1 ≤ d ∧ d ≤ 31 then .valid (civilMs y m d - tz)
  else .invalid

/-- The `new Date` call on the template string built from a slash match: the string is a
date-only ISO string exactly when both the month and the day group have two digits. -/
def mdyToDate (tz : Int) (g : List Char × List Char × List Char) : JSDate :=
  let m := digitsToNat g.1
  let d := digitsToNat g.2.1
  let y := digitsToNat g.2.2
  if g.1.length = 2 ∧ g.2.1.length = 2 then newDateIso y m d else newDateLegacy tz y m d

/-- `parseDate` (useData.ts lines 145-156): try the ISO pattern anywhere in the string,
then the `M/D/YYYY` pattern, else return `new Date(0)` (the Unix epoch). -/
def parseDate (tz : Int) (dateStr : String) : JSDate :=
  match isoScan dateStr with
  | some (y, m, d) => newDateIso y m d
  | none =>
    match mdyScan dateStr with
    | some g => mdyToDate tz g
    | none => .valid 0

/-- C5: `parseDate` tries the ISO pattern first, then `M/D/YYYY`, else returns the Unix
epoch; concretely, `"2024-03-05 some text"` parses to 2024-03-05 (UTC midnight,
timestamp 1709596800000), `"3/5/2024"` parses to local midnight of 2024-03-05, and
`"not a date"` parses to the epoch. -/
theorem parseDate_spec (tz : Int) :
    parseDate tz "2024-03-05 some text" = JSDate.valid 1709596800000
    ∧ parseDate tz "3/5/2024" = JSDate.valid (1709596800000 - tz)
    ∧ parseDate tz "not a date" = JSDate.valid 0
    ∧ (∀ s y m d, isoScan s = some (y, m, d) → parseDate tz s = newDateIso y m d)
    ∧ (∀ s g, isoScan s = none → mdyScan s = some g → parseDate tz s = mdyToDate tz g)
    ∧ (∀ s, isoScan s = none → mdyScan s = none → parseDate tz s = JSDate.valid 0) := by
  refine ⟨?_, ?_, ?_, ?_, ?_, ?_⟩
  · have h : isoScan "2024-03-05 some text" = some (2024, 3, 5) := by decide
    have hc : newDateIso 2024 3 5 = JSDate.valid 1709596800000 := by decide
    simp [parseDate, h, hc]
  · have h1 : isoScan "3/5/2024" = none := by decide
    have h2 : mdyScan "3/5/2024" = some (['3'], ['5'], ['2', '0', '2', '4']) := by decide
    have hc : civilMs 2024 3 5 = 1709596800000 := by decide
    simp [parseDate, h1, h2, mdyToDate, digitsToNat, newDateLegacy]
    exact hc
  · have h1 : isoScan "not a date" = none := by decide
    have h2 : mdyScan "not a date" = none := by decide
    simp [parseDate, h1, h2]
  · intro s y m d h
    simp [parseDate, h]
  · intro s g h1 h2
    simp [parseDate, h1, h2]
  · intro s h1 h2
    simp [parseDate, h1, h2]

/-- Witness for C5: the second-pattern branch evaluated at `"12/25/2024"` (a two-digit
month and day, so the rebuilt string is ISO). -/
theorem parseDate_spec_witness :
    parseDate 0 "12/25/2024" = newDateIso 2024 12 25 := by
  have h := (parseDate_spec 0).2.2.2.2.1 "12/25/2024"
    (['1', '2'], ['2', '5'], ['2', '0', '2', '4']) (by decide) (by decide)
  rw [h]
  decide

/-- `Date.prototype.getTime`: `none` models the `NaN` of an invalid date. -/
def jsTime : JSDate → Option Int
  | .valid ms => some ms
  | .invalid => none

/-- The sort key used by `getTagFeatures`: `parseDate(feature.time).getTime()`. -/
def featureSortTime (tz : Int) (f : Feature) : Option Int :=
  jsTime (parseDate tz f.time)

/-- The sort key with the `NaN` case defaulted to `0` (only used where every compared
date is valid). -/
def timeD (tz : Int) (f : Feature) : Int :=
  (featureSortTime tz f).getD 0

/-- The comparator `(a, b) => dateB.getTime() - dateA.getTime()` of `getTagFeatures`,
read as the precedence test of a stable sort: `a` may stay before `b` iff the comparator
value is not positive.  A comparison with an invalid date yields `NaN`, which the engine
treats as neither positive nor negative; that case is modelled as a tie. -/
def sortLe (tz : Int) (a b : Product × Feature) : Bool :=
  match featureSortTime tz a.2, featureSortTime tz b.2 with
  | some ta, some tb => decide (tb ≤ ta)
  | _, _ => true

/-- Insertion step of a stable comparator sort: `x` goes in front of the first element
it may precede, hence after every earlier element it is tied with. -/
def insertSorted (le : α → α → Bool) (x : α) : List α → List α
  | [] => [x]
  | y :: ys => if le x y then x :: y :: ys else y :: insertSorted le x ys

/-- Stable comparator sort, the semantics of `Array.prototype.sort` (stable per the
ECMAScript specification) for a consistent comparator. -/
def stableSort (le : α → α → Bool) : List α → List α
  | [] => []
  | x :: xs => insertSorted le x (stableSort le xs)

theorem insertSorted_perm (le : α → α → Bool) (x : α) :
    ∀ l : List α, (insertSorted le x l).Perm (x :: l) := by
  intro l
  induction l with
  | nil => exact List.Perm.refl _
  | cons y ys ih =>
    by_cases h : le x y
    · simp [insertSorted, h]
    · simp only [insertSorted, h, if_false]
      exact (ih.cons y).trans (List.Perm.swap x y ys)

theorem stableSort_perm (le : α → α → Bool) :
    ∀ l : List α, (stableSort le l).Perm l := by
  intro l
  induction l with
  | nil => exact List.Perm.refl _
  | cons x xs ih =>
    exact (insertSorted_perm le x (stableSort le xs)).trans (ih.cons x)

theorem insertSorted_congr (le le' : α → α → Bool) (x : α) :
    ∀ l : List α, (∀ b ∈ l, le x b = le' x b) →
      insertSorted le x l = insertSorted le' x l := by
  intro l
  induction l with
  | nil => intro _; rfl
  | cons y ys ih =>
    intro h
    have hy : le x y = le' x y := h y (List.mem_cons_self y ys)
    by_cases hxy : le x y
    · simp [insertSorted, hxy, hy ▸ hxy]
    · have hxy' : ¬ le' x y = true := by rw [← hy]; exact hxy
      simp only [insertSorted, hxy, hxy', if_false]
      rw [ih fun b hb => h b (List.mem_cons_of_mem y hb)]

theorem stableSort_congr (le le' : α → α → Bool) :
    ∀ l : List α, (∀ a ∈ l, ∀ b ∈ l, le a b = le' a b) →
      stableSort le l = stableSort le' l := by
  intro l
  induction l with
  | nil => intro _; rfl
  | cons x xs ih =>
    intro h
    show insertSorted le x (stableSort le xs) = insertSorted le' x (stableSort le' xs)
    rw [ih fun a ha b hb =>
      h a (List.mem_cons_of_mem x ha) b (List.mem_cons_of_mem x hb)]
    refine insertSorted_congr le le' x _ fun b hb => ?_
    have hb' : b ∈ xs := ((stableSort_perm le' xs).mem_iff).mp hb
    exact h x (List.mem_cons_self x xs) b (List.mem_cons_of_mem x hb')

theorem insertSorted_pairwise (le : α → α → Bool)
    (htot : ∀ a b, le a b = true ∨ le b a = true)
    (htrans : ∀ a b c, le a b = true → le b c = true → le a c = true) (x : α) :
    ∀ l : List α, l.Pairwise (fun a b => le a b = true) →
      (insertSorted le x l).Pairwise (fun a b => le a b = true) := by
  intro l
  induction l with
  | nil => intro _; simp [insertSorted]
  | cons y ys ih =>
    intro hl
    obtain ⟨hy, hys⟩ := List.pairwise_cons.mp hl
    by_cases h : le x y
    · simp only [insertSorted, h, if_true]
      refine List.pairwise_cons.mpr ⟨?_, hl⟩
      intro b hb
      rcases List.mem_cons.mp hb with hb | hb
      · exact hb ▸ h
      · exact htrans x y b h (hy b hb)
    · simp only [insertSorted, h, if_false]
      refine List.pairwise_cons.mpr ⟨?_, ih hys⟩
      intro b hb
      rcases List.mem_cons.mp ((insertSorted_perm le x ys).mem_iff.mp hb) with hb | hb
      · cases hb
        rcases htot x y with hxy | hyx
        · exact absurd hxy h
        · exact hyx
      · exact hy b hb

theorem stableSort_pairwise (le : α → α → Bool)
    (htot : ∀ a b, le a b = true ∨ le b a = true)
    (htrans : ∀ a b c, le a b = true → le b c = true → le a c = true) :
    ∀ l : List α, (stableSort le l).Pairwise (fun a b => le a b = true) := by
  intro l
  induction l with
  | nil => simp [stableSort]
  | cons x xs ih => exact insertSorted_pairwise le htot htrans x _ ih

theorem insertSorted_map (f : α → β) (le : β → β → Bool) (x : α) :
    ∀ l : List α, (insertSorted (fun a b => le (f a) (f b)) x l).map f
      = insertSorted le (f x) (l.map f) := by
  intro l
  induction l with
  | nil => rfl
  | cons y ys ih =>
    by_cases h : le (f x) (f y)
    · simp [insertSorted, h]
    · simp [insertSorted, h, ih]

theorem stableSort_map (f : α → β) (le : β → β → Bool) :
    ∀ l : List α, (stableSort (fun a b => le (f a) (f b)) l).map f
      = stableSort le (l.map f) := by
  intro l
  induction l with
  | nil => rfl
  | cons x xs ih =>
    show (insertSorted (fun a b => le (f a) (f b)) x _).map f = _
    rw [insertSorted_map f le x, ih]
    rfl

theorem insertSorted_stable (le : α → α → Bool)
    (htot : ∀ a b, le a b = true ∨ le b a = true)
    (htrans : ∀ a b c, le a b = true → le b c = true → le a c = true) (x : Nat × α) :
    ∀ s : List (Nat × α),
      s.Pairwise (fun a b => le a.2 b.2 = true ∧ (le b.2 a.2 = true → a.1 < b.1)) →
      (∀ z ∈ s, x.1 < z.1) →
      (insertSorted (fun a b => le a.2 b.2) x s).Pairwise
        (fun a b => le a.2 b.2 = true ∧ (le b.2 a.2 = true → a.1 < b.1)) := by
  intro s
  induction s with
  | nil => intro _ _; simp [insertSorted]
  | cons y ys ih =>
    intro hs hidx
    obtain ⟨hy, hys⟩ := List.pairwise_cons.mp hs
    by_cases h : le x.2 y.2
    · simp only [insertSorted, h, if_true]
      refine List.pairwise_cons.mpr ⟨?_, hs⟩
      intro b hb
      rcases List.mem_cons.mp hb with hb | hb
      · exact hb ▸ ⟨h, fun _ => hidx y (List.mem_cons_self y ys)⟩
      · exact ⟨htrans x.2 y.2 b.2 h (hy b hb).1, fun _ => hidx b (List.mem_cons_of_mem y hb)⟩
    · simp only [insertSorted, h, if_false]
      refine List.pairwise_cons.mpr
        ⟨?_, ih hys fun z hz => hidx z (List.mem_cons_of_mem y hz)⟩
      intro b hb
      rcases List.mem_cons.mp
        ((insertSorted_perm (fun a b => le a.2 b.2) x ys).mem_iff.mp hb) with hb | hb
      · cases hb
        rcases htot x.2 y.2 with hxy | hyx
        · exact absurd hxy h
        · exact ⟨hyx, fun hc => absurd hc h⟩
      · exact hy b hb

theorem stableSort_stable (le : α → α → Bool)
    (htot : ∀ a b, le a b = true ∨ le b a = true)
    (htrans : ∀ a b c, le a b = true → le b c = true → le a c = true) :
    ∀ l : List (Nat × α), l.Pairwise (fun a b => a.1 < b.1) →
      (stableSort (fun a b => le a.2 b.2) l).Pairwise
        (fun a b => le a.2 b.2 = true ∧ (le b.2 a.2 = true → a.1 < b.1)) := by
  intro l
  induction l with
  | nil => intro _; simp [stableSort]
  | cons x xs ih =>
    intro hl
    obtain ⟨hx, hxs⟩ := List.pairwise_cons.mp hl
    refine insertSorted_stable le htot htrans x _ (ih hxs) fun z hz => ?_
    exact hx z ((stableSort_perm (fun a b => le a.2 b.2) xs).mem_iff.mp hz)

theorem enumFrom_fst_le (n : Nat) :
    ∀ l : List α, ∀ z ∈ List.enumFrom n l, n ≤ z.1 := by
  intro l
  induction l generalizing n with
  | nil => intro z hz; simp [List.enumFrom] at hz
  | cons a as ih =>
    intro z hz
    rw [List.enumFrom_cons] at hz
    rcases List.mem_cons.mp hz with hz | hz
    · simp [hz]
    · exact Nat.le_of_succ_le (ih (n + 1) z hz)

theorem enumFrom_pairwise (n : Nat) :
    ∀ l : List α, (List.enumFrom n l).Pairwise (fun a b => a.1 < b.1) := by
  intro l
  induction l generalizing n with
  | nil => simp [List.enumFrom]
  | cons a as ih =>
    rw [List.enumFrom_cons]
    refine List.pairwise_cons.mpr ⟨?_, ih (n + 1)⟩
    intro z hz
    exact Nat.lt_of_lt_of_le (Nat.lt_succ_self n) (enumFrom_fst_le (n + 1) as z hz)

theorem enum_pairwise (l : List α) : l.enum.Pairwise (fun a b => a.1 < b.1) :=
  enumFrom_pairwise 0 l

/-- The unsorted match list of `getTagFeatures`: iteration over products, then over that
product's matching features, pushing `(product, feature)` pairs. -/
def gatherTagFeatures (products : List Product) (p s : String) : List (Product × Feature) :=
  products.flatMap fun product =>
    (getProductTagFeatures product p s).map fun f => (product, f)

/-- `getTagFeatures` (useData.ts lines 126-142): gather all matches, then
`results.sort((a, b) => dateB.getTime() - dateA.getTime())`. -/
def getTagFeatures (tz : Int) (products : List Product) (p s : String) :
    List (Product × Feature) :=
  stableSort (sortLe tz) (gatherTagFeatures products p s)

/-- C4: `getTagFeatures` is a permutation of the iteration-order match list; it equals
the index-annotated stable sort with the indices dropped; when every compared date is
valid it is sorted descending by parsed time, with ties resolved by iteration order
(stability); and when every date string that matches a pattern parses to a time
strictly after the epoch, every match with an unparsable date (epoch sentinel) sorts
after every match with a parsable one.  Strictness is needed: a date exactly on the
epoch ties the sentinel, see the counterexample. -/
theorem getTagFeatures_sorted (tz : Int) (products : List Product) (p s : String) :
    (getTagFeatures tz products p s).Perm (gatherTagFeatures products p s)
    ∧ (stableSort (fun a b => sortLe tz a.2 b.2)
        (gatherTagFeatures products p s).enum).map Prod.snd = getTagFeatures tz products p s
    ∧ ((∀ x ∈ gatherTagFeatures products p s, (featureSortTime tz x.2).isSome = true) →
        (getTagFeatures tz products p s).Pairwise
          (fun a b => timeD tz b.2 ≤ timeD tz a.2)
        ∧ (stableSort (fun a b => sortLe tz a.2 b.2)
            (gatherTagFeatures products p s).enum).Pairwise
            (fun a b => timeD tz b.2.2 < timeD tz a.2.2
              ∨ (timeD tz a.2.2 = timeD tz b.2.2 ∧ a.1 < b.1)))
    ∧ ((∀ x ∈ gatherTagFeatures products p s,
          ¬(isoScan x.2.time = none ∧ mdyScan x.2.time = none) → 0 < timeD tz x.2) →
        (getTagFeatures tz products p s).Pairwise
          (fun a b => (isoScan a.2.time = none ∧ mdyScan a.2.time = none) →
            (isoScan b.2.time = none ∧ mdyScan b.2.time = none))) := by
  set g := gatherTagFeatures products p s with hg
  set leD : Product × Feature → Product × Feature → Bool :=
    fun a b => decide (timeD tz b.2 ≤ timeD tz a.2) with hleD
  have htot : ∀ a b, leD a b = true ∨ leD b a = true := by
    intro a b
    simp only [hleD, decide_eq_true_eq]
    exact le_total _ _
  have htrans : ∀ a b c, leD a b = true → leD b c = true → leD a c = true := by
    intro a b c
    simp only [hleD, decide_eq_true_eq]
    exact fun h1 h2 => le_trans h2 h1
  have hperm : (getTagFeatures tz products p s).Perm g := stableSort_perm (sortLe tz) g
  have hmap : (stableSort (fun a b => sortLe tz a.2 b.2) g.enum).map Prod.snd
      = getTagFeatures tz products p s := by
    rw [stableSort_map Prod.snd (sortLe tz) g.enum, List.enum_map_snd]
    rfl
  have hsorted : (∀ x ∈ g, (featureSortTime tz x.2).isSome = true) →
      (getTagFeatures tz products p s).Pairwise
        (fun a b => timeD tz b.2 ≤ timeD tz a.2)
      ∧ (stableSort (fun a b => sortLe tz a.2 b.2) g.enum).Pairwise
          (fun a b => timeD tz b.2.2 < timeD tz a.2.2
            ∨ (timeD tz a.2.2 = timeD tz b.2.2 ∧ a.1 < b.1)) := by
    intro hv
    have hagree : ∀ a ∈ g, ∀ b ∈ g, sortLe tz a b = leD a b := by
      intro a ha b hb
      obtain ⟨ta, hta⟩ := Option.isSome_iff_exists.mp (hv a ha)
      obtain ⟨tb, htb⟩ := Option.isSome_iff_exists.mp (hv b hb)
      simp [sortLe, hta, htb, hleD, timeD]
    constructor
    · show (stableSort (sortLe tz) g).Pairwise _
      rw [stableSort_congr (sortLe tz) leD g hagree]
      refine (stableSort_pairwise leD htot htrans g).imp ?_
      intro a b h
      simpa [hleD, decide_eq_true_eq] using h
    · have hagree2 : ∀ a ∈ g.enum, ∀ b ∈ g.enum,
          (fun a b : Nat × (Product × Feature) => sortLe tz a.2 b.2) a b
            = (fun a b : Nat × (Product × Feature) => leD a.2 b.2) a b := by
        intro a ha b hb
        have ha2 : a.2 ∈ g := by
          have := List.mem_map_of_mem Prod.snd ha
          rwa [List.enum_map_snd] at this
        have hb2 : b.2 ∈ g := by
          have := List.mem_map_of_mem Prod.snd hb
          rwa [List.enum_map_snd] at this
        exact hagree a.2 ha2 b.2 hb2
      rw [stableSort_congr _ _ g.enum hagree2]
      refine (stableSort_stable leD htot htrans g.enum (enum_pairwise g)).imp ?_
      intro a b h
      obtain ⟨h1, h2⟩ := h
      simp only [hleD, decide_eq_true_eq] at h1 h2
      rcases eq_or_lt_of_le h1 with heq | hlt
      · exact Or.inr ⟨heq.symm, h2 (le_of_eq heq.symm)⟩
      · exact Or.inl hlt
  refine ⟨hperm, hmap, hsorted, ?_⟩
  intro hp
  have hv : ∀ x ∈ g, (featureSortTime tz x.2).isSome = true := by
    intro x hx
    by_cases hu : isoScan x.2.time = none ∧ mdyScan x.2.time = none
    · have hpd : parseDate tz x.2.time = JSDate.valid 0 := by
        simp [parseDate, hu.1, hu.2]
      simp [featureSortTime, hpd, jsTime]
    · have hpos := hp x hx hu
      rcases hft : featureSortTime tz x.2 with _ | t
      · rw [timeD, hft] at hpos
        simp at hpos
      · simp
  have hdesc := (hsorted hv).1
  refine List.Pairwise.imp_of_mem ?_ hdesc
  intro a b ha hb hab hua
  by_cases hub : isoScan b.2.time = none ∧ mdyScan b.2.time = none
  · exact hub
  · exfalso
    have hbg : b ∈ g := hperm.mem_iff.mp hb
    have hposb := hp b hbg hub
    have hza : timeD tz a.2 = 0 := by
      have hpd : parseDate tz a.2.time = JSDate.valid 0 := by
        simp [parseDate, hua.1, hua.2]
      simp [timeD, featureSortTime, hpd, jsTime]
    rw [hza] at hab
    exact absurd (lt_of_lt_of_le hposb hab) (lt_irrefl 0)

/-- Witness for C4: a two-product example with one parsable and one unparsable date. -/
theorem getTagFeatures_sorted_witness :
    (getTagFeatures 0
      [{ name := "a", url := "",
         features := [{ title := "fa", description := "", time := "2024-03-05",
                        tags := TagsField.array [{ name := "UI", subtags := some [] }] }] },
       { name := "b", url := "",
         features := [{ title := "fb", description := "", time := "unknown",
                        tags := TagsField.array [{ name := "UI", subtags := some [] }] }] }]
      "UI" "Other").Pairwise
        (fun a b => (isoScan a.2.time = none ∧ mdyScan a.2.time = none) →
          (isoScan b.2.time = none ∧ mdyScan b.2.time = none)) := by
  exact (getTagFeatures_sorted 0
    [{ name := "a", url := "",
       features := [{ title := "fa", description := "", time := "2024-03-05",
                      tags := TagsField.array [{ name := "UI", subtags := some [] }] }] },
     { name := "b", url := "",
       features := [{ title := "fb", description := "", time := "unknown",
                      tags := TagsField.array [{ name := "UI", subtags := some [] }] }] }]
    "UI" "Other").2.2.2 (by decide)

/-- C10: the matrix presence marker agrees with the per-product feature list
(`productHasTag` holds iff `getProductTagFeatures` is non-empty), and the length of
`getTagFeatures` is the sum over products of the per-product match counts. -/
theorem matrix_consistent (tz : Int) (products : List Product) (product : Product)
    (p s : String) :
    (productHasTag product p s = true ↔ getProductTagFeatures product p s ≠ [])
    ∧ (getTagFeatures tz products p s).length
        = (products.map fun pr => (getProductTagFeatures pr p s).length).sum := by
  constructor
  · have hB : ∀ (x a : Bool), (x && a) = (if !x then false else a) := by
      intro x a
      cases x <;> simp
    have hPB : productHasTag product p s
        = product.features.any fun feature =>
            (normTags feature).any fun tag =>
              if tag.name != p then false
              else if s == "Other" then tag.subtagList.length == 0
              else tag.subtagList.any fun st => st.name == s := by
      rw [productHasTag]
      congr 1
      funext feature
      congr 1
      funext tag
      exact hB (tag.name == p) _
    rw [hPB, getProductTagFeatures, Ne, List.filter_eq_nil_iff, List.any_eq_true]
    push_neg
    rfl
  · rw [getTagFeatures,
      (stableSort_perm (sortLe tz) (gatherTagFeatures products p s)).length_eq,
      gatherTagFeatures, List.length_flatMap]
    have hc : (List.length ∘ fun product =>
        (getProductTagFeatures product p s).map fun f => (product, f))
        = fun pr => (getProductTagFeatures pr p s).length := by
      funext pr
      simp [Function.comp, List.length_map]
    rw [hc]

/-- A taxonomy tag as it may arrive in raw JSON: the `subtags` field may be missing
(`none`), which the TypeScript type forbids but no code path validates. -/
structure RawTag where
  name : String
  description : Option String
  subtags : Option (List Subtag)
deriving DecidableEq

/-- Well-typed taxonomy tags are raw tags whose `subtags` field is present. -/
def Tag.toRaw (t : Tag) : RawTag :=
  { name := t.name, description := t.description, subtags := some t.subtags }

/-- `flattenTags` run on raw taxonomy data with JS evaluation semantics: the loop body
reads `tag.subtags.length` without a guard, so a missing `subtags` field throws a
`TypeError` that aborts the whole call. -/
def flattenTagsRaw : List RawTag → Except String (List TagRow)
  | [] => .ok []
  | tag :: rest =>
    match tag.subtags with
    | none => .error "TypeError: tag.subtags is undefined"
    | some subs =>
      (flattenTagsRaw rest).map fun rows =>
        (if subs.length = 0 then
          [{ primaryTag := tag.name, secondaryTag := "Other",
             primaryDescription := tag.description, secondaryDescription := tag.description }]
        else
          subs.map fun subtag =>
            { primaryTag := tag.name, secondaryTag := subtag.name,
              primaryDescription := tag.description,
              secondaryDescription := subtag.description })
          ++ rows

/-- `getSubtags` run on raw taxonomy data: it reads `tag.subtags.length` of the found
tag without a guard, so a missing `subtags` field throws. -/
def getSubtagsRaw (tags : List RawTag) (primaryTag : String) : Except String (List String) :=
  match tags.find? fun t => t.name == primaryTag with
  | none => .ok []
  | some tag =>
    match tag.subtags with
    | none => .error "TypeError: tag.subtags is undefined"
    | some subs => .ok (if subs.length = 0 then ["Other"] else subs.map fun st => st.name)

/-- C2 counterexample: `flattenTags` is not total over a taxonomy whose tag is missing
its `subtags` field - it throws a `TypeError` instead of treating the collection as
empty. -/
theorem flattenTags_throws_on_missing_subtags :
    (flattenTagsRaw [{ name := "X", description := none, subtags := none }]).isOk = false := by
  rfl

/-- C2 amended: the feature-side Tag Matrix Model functions treat a malformed feature
`tags` field and a missing feature-tag `subtags` field as empty collections and never
throw, and `flattenTags`/`getSubtags` are total over every taxonomy whose tags carry a
`subtags` array (succeeding exactly then, agreeing with the typed functions); but a
taxonomy tag with a missing `subtags` field makes `flattenTags` throw, and makes
`getSubtags` throw when that tag is the one found. -/
theorem tagModel_totality :
    (∀ ts : List Tag, flattenTagsRaw (ts.map Tag.toRaw) = .ok (flattenTags ts))
    ∧ (∀ rts : List RawTag, (flattenTagsRaw rts).isOk = true ↔ ∀ t ∈ rts, t.subtags ≠ none)
    ∧ (∀ (ts : List Tag) (q : String),
        getSubtagsRaw (ts.map Tag.toRaw) q = .ok (getSubtags ts q))
    ∧ (∀ (rts : List RawTag) (q : String) (t : RawTag),
        rts.find? (fun t => t.name == q) = some t → t.subtags = none →
        (getSubtagsRaw rts q).isOk = false)
    ∧ (∀ (product : Product) (p s : String) (f : Feature), f.tags = TagsField.nonArray →
        productHasTag { product with features := f :: product.features } p s
          = productHasTag product p s
        ∧ getProductTagFeatures { product with features := f :: product.features } p s
          = getProductTagFeatures product p s) := by
  refine ⟨?_, ?_, ?_, ?_, ?_⟩
  · intro ts
    induction ts with
    | nil => rfl
    | cons t rest ih =>
      simp only [List.map_cons, flattenTagsRaw, Tag.toRaw, ih, Except.map, flattenTags]
  · intro rts
    induction rts with
    | nil => simp [flattenTagsRaw, Except.isOk, Except.toBool]
    | cons t rest ih =>
      cases ht : t.subtags with
      | none =>
        simp [flattenTagsRaw, ht, Except.isOk, Except.toBool]
      | some subs =>
        have hmap : ∀ (e : Except String (List TagRow)) (f : List TagRow → List TagRow),
            (e.map f).isOk = e.isOk := by
          intro e f
          cases e <;> rfl
        simp only [flattenTagsRaw, ht, hmap, ih]
        constructor
        · intro h t' ht'
          rcases List.mem_cons.mp ht' with h' | h'
          · rw [h', ht]
            simp
          · exact h t' h'
        · intro h t' ht'
          exact h t' (List.mem_cons_of_mem t ht')
  · intro ts q
    have hfind : (ts.map Tag.toRaw).find? (fun t => t.name == q)
        = (ts.find? fun t => t.name == q).map Tag.toRaw := by
      induction ts with
      | nil => rfl
      | cons t rest ih =>
        by_cases h : t.name == q
        · simp [List.find?_cons, Tag.toRaw, h]
        · simp only [List.map_cons, List.find?_cons, Tag.toRaw] at *
          simp only [h]
          exact ih
    rw [getSubtagsRaw, hfind, getSubtags]
    cases hf : ts.find? fun t => t.name == q with
    | none => rfl
    | some t => simp [Tag.toRaw]
  · intro rts q t hfind hsub
    rw [getSubtagsRaw, hfind]
    show (match t.subtags with
      | none => Except.error "TypeError: tag.subtags is undefined"
      | some subs =>
        Except.ok (if subs.length = 0 then ["Other"]
          else List.map (fun st : Subtag => st.name) subs)).isOk = false
    rw [hsub]
    rfl
  · intro product p s f hf
    constructor
    · simp [productHasTag, normTags, hf, TagsField.toList]
    · simp [getProductTagFeatures, normTags, hf, TagsField.toList]

/-- Witness for C2 (amended): `getSubtags` evaluated where the found tag is missing its
`subtags` field, via the theorem's throw clause, and the typed/raw agreement of
`flattenTags` on a concrete one-tag taxonomy. -/
theorem tagModel_totality_witness :
    (getSubtagsRaw [{ name := "X", description := none, subtags := none }] "X").isOk = false
    ∧ flattenTagsRaw [Tag.toRaw { name := "A", description := some "d", subtags := [] }]
        = .ok (flattenTags [{ name := "A", description := some "d", subtags := [] }]) := by
  constructor
  · exact tagModel_totality.2.2.2.1 [{ name := "X", description := none, subtags := none }]
      "X" { name := "X", description := none, subtags := none } (by decide) rfl
  · exact tagModel_totality.1 [{ name := "A", description := some "d", subtags := [] }]

/-- One raw record of a product storage document: `{name, url?, features?}`
(`ProductData` in types/index.ts). -/
structure ProductData where
  name : String
  url : Option String
  features : Option (List Feature)
deriving DecidableEq

/-- Outcome of fetching and JSON-parsing one document: `fail` collapses a network
error, a non-ok response and a JSON parse error (all handled identically by the
source); `ok` carries the parsed value. -/
inductive FetchOutcome (α : Type) where
  | fail
  | ok (data : α)
deriving DecidableEq

/-- The per-product branch of `useData.loadData` (useData.ts lines 26-47): any
fetch/parse failure yields `null`, the first record not named `"feature"` is the app
info (its absence also yields `null`), and the record named `"feature"` supplies the
feature list (`featureData?.features || []`). -/
def processProduct : FetchOutcome (List ProductData) → Option Product
  | .fail => none
  | .ok data =>
    match data.find? fun item => item.name != "feature" with
    | none => none
    | some appInfo =>
      let featureData := data.find? fun item => item.name == "feature"
      some { name := appInfo.name, url := appInfo.url.getD "",
             features := (featureData.bind fun fd => fd.features).getD [] }

/-- The state exposed by `useData` once `loadData` settles. -/
structure LoadState where
  tags : List Tag
  products : List Product
  error : Option String
  loading : Bool
deriving DecidableEq

/-- `useData.loadData` (useData.ts lines 14-56) as a function of the fetch outcomes: a
failure of the tag document sets the top-level error and leaves the initial empty
lists; otherwise each product outcome is processed independently and the `null`
results are filtered out. -/
def loadData (tagsFetch : FetchOutcome (List Tag))
    (productFetches : List (FetchOutcome (List ProductData))) : LoadState :=
  match tagsFetch with
  | .fail =>
    { tags := [], products := [], error := some "Failed to load tags", loading := false }
  | .ok tagsData =>
    { tags := tagsData, products := productFetches.filterMap processProduct,
      error := none, loading := false }

/-- C7: a fetch/parse failure for one product document (or a document without an
app-info record) only omits that product: the others load exactly as if the failed one
were absent, the top-level error stays unset, and the tags are unaffected. -/
theorem loadData_isolates_product_failures (tagsData : List Tag)
    (l1 l2 : List (FetchOutcome (List ProductData)))
    (f : FetchOutcome (List ProductData)) (hf : processProduct f = none) :
    (loadData (.ok tagsData) (l1 ++ f :: l2)).products
      = (loadData (.ok tagsData) (l1 ++ l2)).products
    ∧ (loadData (.ok tagsData) (l1 ++ f :: l2)).error = none
    ∧ (loadData (.ok tagsData) (l1 ++ f :: l2)).tags = tagsData := by
  refine ⟨?_, rfl, rfl⟩
  simp [loadData, List.filterMap_append, List.filterMap_cons, hf]

/-- Witness for C7: one good document plus one failed fetch loads exactly the one good
product. -/
theorem loadData_isolates_witness :
    (loadData (.ok [])
      [FetchOutcome.ok [{ name := "youware", url := some "u", features := some [] }],
       FetchOutcome.fail]).products
      = (loadData (.ok [])
        [FetchOutcome.ok
          [{ name := "youware", url := some "u", features := some [] }]]).products := by
  exact (loadData_isolates_product_failures []
    [FetchOutcome.ok [{ name := "youware", url := some "u", features := some [] }]]
    [] FetchOutcome.fail rfl).1

/-- `Response.ok` of the Fetch API: status in the 2xx range. -/
def respOk (status : Nat) : Bool :=
  decide (200 ≤ status ∧ status ≤ 299)

/-- The admin-page client state relevant to authentication and the data each handler
stores.  `storedToken` is the `admin_token` entry of `localStorage`; `authToken` and
`isAuthenticated` are the React state of the page.  Transient message strings (save
and error banners) are view detail and are not tracked. -/
structure AdminState where
  storedToken : Option String
  authToken : Option String
  isAuthenticated : Bool
  changelog : String
  logs : List String
  scriptLogs : List String
  othersFeatures : List String
  tagsData : Option String
  featureItems : List String
  featureTotal : Nat
  untaggedFeatures : List String
  usedSubtags : List String
deriving DecidableEq

/-- `handleLogout` of the tag-curation admin page (AdminPage.tsx lines 382-387):
remove the token from `localStorage`, clear the auth state, clear the logs. -/
def handleLogout (st : AdminState) : AdminState :=
  { st with storedToken := none, authToken := none, isAuthenticated := false, logs := [] }

/-- `handleLogout` of the changelog admin page variant (lines 84-90 of that file): it
additionally clears the changelog buffer. -/
def handleLogoutChangelog (st : AdminState) : AdminState :=
  { st with storedToken := none, authToken := none, isAuthenticated := false,
            changelog := "", logs := [] }

/-- `loadChangelog` (changelog admin page lines 92-112): ok stores the content, 401
logs out, anything else (or a network error) only warns. -/
def loadChangelogStep (st : AdminState) (status : Nat) (content : String) : AdminState :=
  if st.authToken = none then st
  else if respOk status then { st with changelog := content }
  else if status = 401 then handleLogoutChangelog st
  else st

/-- `saveChangelog` (changelog admin page lines 114-143): ok only shows a message, 401
logs out, anything else shows an error message. -/
def saveChangelogStep (st : AdminState) (status : Nat) : AdminState :=
  if st.authToken = none then st
  else if respOk status then st
  else if status = 401 then handleLogoutChangelog st
  else st

/-- `loadOthersFeatures` (AdminPage.tsx lines 132-152): ok stores the feature list, 401
logs out. -/
def loadOthersFeaturesStep (st : AdminState) (status : Nat) (features : List String) :
    AdminState :=
  if st.authToken = none then st
  else if respOk status then { st with othersFeatures := features }
  else if status = 401 then handleLogout st
  else st

/-- `loadTagsData` (AdminPage.tsx lines 154-169): ok stores the taxonomy payload; any
other response, 401 included, is ignored. -/
def loadTagsDataStep (st : AdminState) (status : Nat) (data : String) : AdminState :=
  if st.authToken = none then st
  else if respOk status then { st with tagsData := some data }
  else st

/-- `updateOthersTag` (AdminPage.tsx lines 171-206): ok triggers reloads, 401 logs out,
anything else alerts. -/
def updateOthersTagStep (st : AdminState) (status : Nat) : AdminState :=
  if st.authToken = none then st
  else if respOk status then st
  else if status = 401 then handleLogout st
  else st

/-- `loadFeatures` (AdminPage.tsx lines 209-235): ok stores the page of feature items
and the total, 401 logs out. -/
def loadFeaturesStep (st : AdminState) (status : Nat) (items : List String) (total : Nat) :
    AdminState :=
  if st.authToken = none then st
  else if respOk status then { st with featureItems := items, featureTotal := total }
  else if status = 401 then handleLogout st
  else st

/-- `updateFeatureTags` (AdminPage.tsx lines 238-265): ok triggers a reload, 401 logs
out. -/
def updateFeatureTagsStep (st : AdminState) (status : Nat) : AdminState :=
  if st.authToken = none then st
  else if respOk status then st
  else if status = 401 then handleLogout st
  else st

/-- `renameTag` (AdminPage.tsx lines 268-305): ok shows the merge count and reloads,
401 logs out, anything else shows an error message. -/
def renameTagStep (st : AdminState) (status : Nat) : AdminState :=
  if st.authToken = none then st
  else if respOk status then st
  else if status = 401 then handleLogout st
  else st

/-- `saveExcludeTags` (AdminPage.tsx lines 314-343): ok shows a message, 401 logs out. -/
def saveExcludeTagsStep (st : AdminState) (status : Nat) : AdminState :=
  if st.authToken = none then st
  else if respOk status then st
  else if status = 401 then handleLogout st
  else st

/-- `addFeature` (AdminPage.tsx lines 390-433): ok clears the form and reloads later,
401 logs out, anything else shows the server error. -/
def addFeatureStep (st : AdminState) (status : Nat) : AdminState :=
  if st.authToken = none then st
  else if respOk status then st
  else if status = 401 then handleLogout st
  else st

/-- `editFeature` (AdminPage.tsx lines 436-463): ok reloads, 401 logs out. -/
def editFeatureStep (st : AdminState) (status : Nat) : AdminState :=
  if st.authToken = none then st
  else if respOk status then st
  else if status = 401 then handleLogout st
  else st

/-- `deleteFeature` (AdminPage.tsx lines 466-494), after the user confirms: ok reloads,
401 logs out. -/
def deleteFeatureStep (st : AdminState) (status : Nat) : AdminState :=
  if st.authToken = none then st
  else if respOk status then st
  else if status = 401 then handleLogout st
  else st

/-- `loadUntaggedFeatures` (untagged admin page, lines 1977-2011): ok stores the list,
401 logs out, anything else records an inline error message. -/
def loadUntaggedFeaturesStep (st : AdminState) (status : Nat) (features : List String) :
    AdminState :=
  if st.authToken = none then st
  else if respOk status then { st with untaggedFeatures := features }
  else if status = 401 then handleLogout st
  else st

/-- `loadUsedSubtags` (untagged admin page, lines 2014-2029): ok stores the set; any
other response, 401 included, is ignored. -/
def loadUsedSubtagsStep (st : AdminState) (status : Nat) (subtags : List String) :
    AdminState :=
  if st.authToken = none then st
  else if respOk status then { st with usedSubtags := subtags }
  else st

/-- `markAsNoTag` (untagged admin page, lines 2032-2059): ok reloads, 401 logs out,
anything else alerts. -/
def markAsNoTagStep (st : AdminState) (status : Nat) : AdminState :=
  if st.authToken = none then st
  else if respOk status then st
  else if status = 401 then handleLogout st
  else st

/-- The authenticated `loadLogs` against `/api/admin/logs` (lines 2447-2468): ok stores
the script logs, any other response (401 included) just clears them - no logout. -/
def loadScriptLogsStep (st : AdminState) (status : Nat) (logs : List String) : AdminState :=
  if st.authToken = none then st
  else if respOk status then { st with scriptLogs := logs }
  else { st with scriptLogs := [] }

/-- `handleAddTag` of `UntaggedFeatureCard` (lines 3270-3301): ok reloads, anything
else (401 included) alerts - no logout. -/
def untaggedCardAddTagStep (st : AdminState) (status : Nat) : AdminState :=
  if st.authToken = none then st
  else if respOk status then st
  else st

/-- The logged-out condition the claim requires after a 401: token removed from
`localStorage` and the client unauthenticated. -/
def loggedOut (st : AdminState) : Prop :=
  st.storedToken = none ∧ st.isAuthenticated = false ∧ st.authToken = none

/-- C8 counterexample: a 401 response to the authenticated `/api/admin/tags` call
(`loadTagsData`) does not log the client out - the stored token and the authenticated
flag survive unchanged. -/
theorem tags401_no_logout :
    (loadTagsDataStep
      { storedToken := some "tok", authToken := some "tok", isAuthenticated := true,
        changelog := "", logs := [], scriptLogs := [], othersFeatures := [],
        tagsData := none, featureItems := [], featureTotal := 0,
        untaggedFeatures := [], usedSubtags := [] } 401 "body").storedToken = some "tok"
    ∧ (loadTagsDataStep
      { storedToken := some "tok", authToken := some "tok", isAuthenticated := true,
        changelog := "", logs := [], scriptLogs := [], othersFeatures := [],
        tagsData := none, featureItems := [], featureTotal := 0,
        untaggedFeatures := [], usedSubtags := [] } 401 "body").isAuthenticated = true := by
  exact ⟨rfl, rfl⟩

/-- C8 amended: a 401 response logs the client out (token removed from `localStorage`,
unauthenticated state) for every authenticated admin call except `loadTagsData`,
`loadUsedSubtags`, the admin script-log loader and the untagged-card tag update, which
ignore the 401 (the last one only clearing its log list). -/
theorem admin401_logout (st : AdminState) (t content d : String)
    (fs items subs lgs : List String) (total : Nat) (h : st.authToken = some t) :
    loggedOut (loadChangelogStep st 401 content)
    ∧ loggedOut (saveChangelogStep st 401)
    ∧ loggedOut (loadOthersFeaturesStep st 401 fs)
    ∧ loggedOut (updateOthersTagStep st 401)
    ∧ loggedOut (loadFeaturesStep st 401 items total)
    ∧ loggedOut (updateFeatureTagsStep st 401)
    ∧ loggedOut (renameTagStep st 401)
    ∧ loggedOut (saveExcludeTagsStep st 401)
    ∧ loggedOut (addFeatureStep st 401)
    ∧ loggedOut (editFeatureStep st 401)
    ∧ loggedOut (deleteFeatureStep st 401)
    ∧ loggedOut (loadUntaggedFeaturesStep st 401 fs)
    ∧ loggedOut (markAsNoTagStep st 401)
    ∧ loadTagsDataStep st 401 d = st
    ∧ loadUsedSubtagsStep st 401 subs = st
    ∧ loadScriptLogsStep st 401 lgs = { st with scriptLogs := [] }
    ∧ untaggedCardAddTagStep st 401 = st := by
  have hne : ¬ st.authToken = none := by
    rw [h]
    exact Option.some_ne_none t
  have h401 : respOk 401 = false := by decide
  refine ⟨?_, ?_, ?_, ?_, ?_, ?_, ?_, ?_, ?_, ?_, ?_, ?_, ?_, ?_, ?_, ?_, ?_⟩ <;>
    simp [loadChangelogStep, saveChangelogStep, loadOthersFeaturesStep,
      updateOthersTagStep, loadFeaturesStep, updateFeatureTagsStep, renameTagStep,
      saveExcludeTagsStep, addFeatureStep, editFeatureStep, deleteFeatureStep,
      loadUntaggedFeaturesStep, markAsNoTagStep, loadTagsDataStep, loadUsedSubtagsStep,
      loadScriptLogsStep, untaggedCardAddTagStep, handleLogout, handleLogoutChangelog,
      loggedOut, hne, h401]

/-- Witness for C8 (amended) at a concrete authenticated state. -/
theorem admin401_logout_witness :
    loggedOut (loadOthersFeaturesStep
      { storedToken := some "tok", authToken := some "tok", isAuthenticated := true,
        changelog := "", logs := [], scriptLogs := [], othersFeatures := [],
        tagsData := none, featureItems := [], featureTotal := 0,
        untaggedFeatures := [], usedSubtags := [] } 401 []) := by
  exact (admin401_logout
    { storedToken := some "tok", authToken := some "tok", isAuthenticated := true,
      changelog := "", logs := [], scriptLogs := [], othersFeatures := [],
      tagsData := none, featureItems := [], featureTotal := 0,
      untaggedFeatures := [], usedSubtags := [] }
    "tok" "" "" [] [] [] [] 0 rfl).2.2.1

/-- C4 counterexample: the epoch sentinel does not always sort unparsable dates last,
and a pattern-matched but invalid date breaks descending sortedness.  First fact: a
parsable pre-1970 date (`"1960-01-01"`, negative timestamp) sorts after the epoch
sentinel, so the unparsable item comes first, not last.  Second fact: a matched but
invalid date (`"2024-13-01"`, month 13) has a `NaN` timestamp, its comparisons are
ties, and the output is not sorted descending by parsed time.  Third fact: a date
exactly on the epoch (`"1970-01-01"`, timestamp 0) ties the `new Date(0)` sentinel, so
the stable sort keeps an earlier unparsable item in front of it - unparsable-last
needs every parsable date to be strictly after the epoch, not merely on or after it. -/
theorem getTagFeatures_sort_counterexample :
    ¬ (getTagFeatures 0
      [{ name := "a", url := "",
         features := [{ title := "old", description := "", time := "1960-01-01",
                        tags := TagsField.array [{ name := "UI", subtags := some [] }] }] },
       { name := "b", url := "",
         features := [{ title := "unk", description := "", time := "no date",
                        tags := TagsField.array [{ name := "UI", subtags := some [] }] }] }]
      "UI" "Other").Pairwise
        (fun a b => (isoScan a.2.time = none ∧ mdyScan a.2.time = none) →
          (isoScan b.2.time = none ∧ mdyScan b.2.time = none))
    ∧ ¬ (getTagFeatures 0
      [{ name := "a", url := "",
         features := [{ title := "bad", description := "", time := "2024-13-01",
                        tags := TagsField.array [{ name := "UI", subtags := some [] }] }] },
       { name := "b", url := "",
         features := [{ title := "ok", description := "", time := "2024-03-05",
                        tags := TagsField.array [{ name := "UI", subtags := some [] }] }] }]
      "UI" "Other").Pairwise
        (fun a b => timeD 0 b.2 ≤ timeD 0 a.2)
    ∧ ¬ (getTagFeatures 0
      [{ name := "a", url := "",
         features := [{ title := "unk", description := "", time := "no date",
                        tags := TagsField.array [{ name := "UI", subtags := some [] }] }] },
       { name := "b", url := "",
         features := [{ title := "epoch", description := "", time := "1970-01-01",
                        tags := TagsField.array [{ name := "UI", subtags := some [] }] }] }]
      "UI" "Other").Pairwise
        (fun a b => (isoScan a.2.time = none ∧ mdyScan a.2.time = none) →
          (isoScan b.2.time = none ∧ mdyScan b.2.time = none)) := by
  refine ⟨?_, ?_, ?_⟩
  · exact of_decide_eq_false (by decide)
  · exact of_decide_eq_false (by decide)
  · exact of_decide_eq_false (by decide)

/-- Witness for C10 at a concrete product: presence in the matrix coincides with a
non-empty detail list. -/
theorem matrix_consistent_witness :
    getProductTagFeatures
      { name := "p1", url := "",
        features := [{ title := "t", description := "", time := "2024-01-01",
                       tags := TagsField.array [{ name := "UI", subtags := some [] }] }] }
      "UI" "Other" ≠ [] := by
  exact (matrix_consistent 0 []
    { name := "p1", url := "",
      features := [{ title := "t", description := "", time := "2024-01-01",
                     tags := TagsField.array [{ name := "UI", subtags := some [] }] }] }
    "UI" "Other").1.mp (by decide)

/-- The fixed rescheduling delay of `pollTaskStatus`: `setTimeout(poll, 2000)`. -/
def pollIntervalMs : Nat := 2000

/-- `const maxAttempts = 150` of `pollTaskStatus`. -/
def maxAttempts : Nat := 150

/-- The `poll` loop of `pollTaskStatus` (lines 244-288 of the changelog admin page,
identical in AdminPage.tsx), driven by the sequence `done`: `done n` is the result of
the n-th `checkStatus` call (`true` iff the `/api/status` response was ok and reported
the job not running).  The loop state is the `attempts` counter; `remaining` is
`maxAttempts - attempts`, so the guard `attempts < maxAttempts` is `remaining > 0`.
The value returned is the total number of `checkStatus` calls performed from check
`checkIdx` on. -/
def pollLoop (done : Nat → Bool) : Nat → Nat → Nat
  | _, 0 => 1
  | checkIdx, remaining + 1 =>
    if done checkIdx then 1 else 1 + pollLoop done (checkIdx + 1) remaining

/-- Total number of `checkStatus` calls performed by one `pollTaskStatus` invocation. -/
def pollChecks (done : Nat → Bool) : Nat :=
  pollLoop done 0 maxAttempts

/-- The time (in ms after `pollTaskStatus` starts) at which check `n` fires: the first
check and every later one are scheduled `setTimeout(poll, 2000)` after the previous
step. -/
def checkTimeMs (n : Nat) : Nat :=
  pollIntervalMs * (n + 1)

theorem pollLoop_le (done : Nat → Bool) :
    ∀ (r i : Nat), pollLoop done i r ≤ r + 1 := by
  intro r
  induction r with
  | zero => intro i; exact Nat.le_refl 1
  | succ r ih =>
    intro i
    by_cases h : done i
    · simp [pollLoop, h]
    · rw [pollLoop, if_neg h]
      have := ih (i + 1)
      omega

theorem pollLoop_runs (done : Nat → Bool) :
    ∀ (r i k : Nat), k + 1 < pollLoop done i r → done (i + k) = false := by
  intro r
  induction r with
  | zero =>
    intro i k hk
    exact absurd hk (by simp [pollLoop])
  | succ r ih =>
    intro i k hk
    by_cases h : done i
    · rw [pollLoop, if_pos h] at hk
      omega
    · rw [pollLoop, if_neg h] at hk
      cases k with
      | zero => simpa using h
      | succ k =>
        have : k + 1 < pollLoop done (i + 1) r := by omega
        have := ih (i + 1) k this
        rwa [show i + 1 + k = i + (k + 1) from by omega] at this

theorem pollLoop_stops (done : Nat → Bool) :
    ∀ (r i k : Nat), done (i + k) = true → pollLoop done i r ≤ k + 1 := by
  intro r
  induction r with
  | zero => intro i k _; simp [pollLoop]
  | succ r ih =>
    intro i k hk
    by_cases h : done i
    · simp [pollLoop, h]
    · rw [pollLoop, if_neg h]
      cases k with
      | zero => exact absurd (by simpa using hk) h
      | succ k =>
        have hk' : done (i + 1 + k) = true := by
          rwa [show i + 1 + k = i + (k + 1) from by omega]
        have := ih (i + 1) k hk'
        omega

/-- C9: the job-status polling loop always terminates: it performs at most
`maxAttempts + 1 = 151` status checks (the initial check plus at most 150 re-checks);
every check before the last one observed the job still running (so the loop stops as
soon as a check reports not-running, and no later than the first such check); the
attempt cap is 150 and each check fires a fixed 2000 ms after the previous step. -/
theorem pollTaskStatus_spec (done : Nat → Bool) :
    pollChecks done ≤ maxAttempts + 1
    ∧ (∀ k, k + 1 < pollChecks done → done k = false)
    ∧ (∀ k, done k = true → pollChecks done ≤ k + 1)
    ∧ maxAttempts = 150 ∧ pollIntervalMs = 2000
    ∧ (∀ n, checkTimeMs (n + 1) - checkTimeMs n = pollIntervalMs) := by
  refine ⟨pollLoop_le done maxAttempts 0, ?_, ?_, rfl, rfl, ?_⟩
  · intro k hk
    have := pollLoop_runs done maxAttempts 0 k hk
    simpa using this
  · intro k hk
    exact pollLoop_stops done maxAttempts 0 k (by simpa using hk)
  · intro n
    simp [checkTimeMs, pollIntervalMs]
    omega

/-- Witness for C9: with the job reporting not-running at the third check, polling
performs at most three checks. -/
theorem pollTaskStatus_spec_witness :
    pollChecks (fun n => n == 2) ≤ 3 := by
  exact (pollTaskStatus_spec (fun n => n == 2)).2.2.1 2 (by decide)

end VCC
